import Mathlib

/-!
Verification of the branching conversation engine of llm-mux.

The data model follows shared/schema.ts (tables chats, turns, messages).
Branch resolution is the canonical PostgresStorage.getTurnsByBranch, the
turn-store operations follow MemStorage in server/storage.ts together with
PostgresStorage, and the orchestration steps follow the streaming and
fan-out routes.  Timestamps are modelled as natural numbers, database or
array ordering as stable insertion sort by timestamp, and string slicing
acts on the character list of a string.
-/

/-- A row of the turns table (shared/schema.ts): one message of the
branching conversation model. -/
structure Turn where
  id : String
  chatId : Nat
  parentTurnId : Option String
  branchId : String
  role : String
  model : Option String
  content : String
  timestamp : Nat
deriving DecidableEq, Repr

/-- A row of the chats table (shared/schema.ts). -/
structure Chat where
  id : Nat
  title : String
  createdAt : Nat
deriving DecidableEq, Repr

/-- A row of the legacy messages table (shared/schema.ts). -/
structure Message where
  id : Nat
  chatId : Nat
  content : String
  role : String
  modelId : Option String
  createdAt : Nat
deriving DecidableEq, Repr

/-- The stored state of the application: chats, turns and legacy messages.
MemStorage keeps turns and messages in maps indexed by chat id; here the
same data is a flat list and the per-chat view is a filter by chatId. -/
structure Store where
  chats : List Chat
  turns : List Turn
  messages : List Message
deriving DecidableEq, Repr

/-- The insert shape accepted by createTurn (insertTurnSchema): the id and
the timestamp are assigned by the store. -/
structure InsertTurn where
  chatId : Nat
  parentTurnId : Option String
  branchId : String
  role : String
  model : Option String
  content : String
deriving DecidableEq, Repr

/-- Timestamp-ascending order on turns, the order produced by
orderBy(turns.timestamp) and by the comparator a.timestamp - b.timestamp. -/
def tsLe (a b : Turn) : Prop := a.timestamp ≤ b.timestamp

instance : DecidableRel tsLe := fun a b => inferInstanceAs (Decidable (a.timestamp ≤ b.timestamp))

instance : IsTotal Turn tsLe := ⟨fun a b => Nat.le_total a.timestamp b.timestamp⟩

instance : IsTrans Turn tsLe := ⟨fun _ _ _ h1 h2 => Nat.le_trans h1 h2⟩

/-- Timestamp-descending order on turns, the order of the comparator
b.timestamp - a.timestamp. -/
def tsGe (a b : Turn) : Prop := b.timestamp ≤ a.timestamp

instance : DecidableRel tsGe := fun a b => inferInstanceAs (Decidable (b.timestamp ≤ a.timestamp))

instance : IsTotal Turn tsGe := ⟨fun a b => Nat.le_total b.timestamp a.timestamp⟩

instance : IsTrans Turn tsGe := ⟨fun _ _ _ h1 h2 => Nat.le_trans h2 h1⟩

/-- A stable timestamp-ascending sort, modelling both the SQL
orderBy(turns.timestamp) and the stable JavaScript Array.sort. -/
def sortByTimestamp (l : List Turn) : List Turn := l.insertionSort tsLe

/-- A stable timestamp-descending sort, modelling
sort((a, b) => b.timestamp - a.timestamp). -/
def sortByTimestampDesc (l : List Turn) : List Turn := l.insertionSort tsGe

/-- The root-branch user turns of a chat, in stored order
(routes.new.ts, getTurnsByBranch, root case). -/
def rootBranchTurns (chatTurns : List Turn) : List Turn :=
  chatTurns.filter (fun t => t.role == "user" && t.branchId == "root")

/-- The single assistant reply displayed for one user turn on the trunk
(routes.new.ts, getTurnsByBranch, root case): among the assistant turns
whose parent is the user turn, prefer the reply whose branchId equals its
own model, otherwise take the first one; none when no reply exists. -/
def pickResponse (chatTurns : List Turn) (userTurn : Turn) : Option Turn :=
  let responses := chatTurns.filter (fun t =>
    t.role == "assistant" && t.parentTurnId == some userTurn.id)
  match responses.find? (fun r => r.model == some r.branchId) with
  | some r => some r
  | none => responses.head?

/-- Trunk resolution (routes.new.ts, getTurnsByBranch, root case): the
root-branch user turns followed by at most one chosen reply for each. -/
def resolveRoot (chatTurns : List Turn) : List Turn :=
  rootBranchTurns chatTurns ++ (rootBranchTurns chatTurns).filterMap (pickResponse chatTurns)

/-- Membership rule for a non-root branch (routes.new.ts, getTurnsByBranch,
else case): the turns of the branch itself, the shared root user turns, and
the assistant turns of the model that names the branch. -/
def nonRootPred (branchId : String) (t : Turn) : Bool :=
  t.branchId == branchId ||
    (t.branchId == "root" && t.role == "user") ||
    (t.role == "assistant" && t.model == some branchId)

/-- The canonical branch resolver, PostgresStorage.getTurnsByBranch
(routes.new.ts): load the turns of the chat ordered by timestamp, then
apply the trunk policy for branch root or the membership filter for any
other branch. -/
def getTurnsByBranch (allTurns : List Turn) (chatId : Nat) (branchId : String) : List Turn :=
  let chatTurns := sortByTimestamp (allTurns.filter (fun t => t.chatId == chatId))
  if branchId == "root" then resolveRoot chatTurns
  else chatTurns.filter (nonRootPred branchId)

/-- Title derivation from the first user turn
(storage.ts, createTurn): content.slice(0, 30) plus an ellipsis marker when
the content is longer than 30 characters. -/
def deriveTitle (content : String) : String :=
  String.mk (content.data.take 30) ++ (if content.data.length > 30 then "..." else "")

/-- MemStorage.updateChatTitle: replace the title of the chat with the
given id; a missing id leaves the store unchanged. -/
def updateChatTitle (s : Store) (id : Nat) (title : String) : Store :=
  { s with chats := s.chats.map (fun c => if c.id == id then { c with title := title } else c) }

/-- Lookup of a chat by id (storage getChat). -/
def getChat (s : Store) (id : Nat) : Option Chat :=
  s.chats.find? (fun c => c.id == id)

/-- MemStorage.createTurn: append the new turn with a fresh id and the
current timestamp; when the turn is the first user turn of its chat,
derive the chat title from its content. -/
def createTurn (s : Store) (ins : InsertTurn) (newId : String) (now : Nat) : Turn × Store :=
  let turn : Turn :=
    { id := newId, chatId := ins.chatId, parentTurnId := ins.parentTurnId,
      branchId := ins.branchId, role := ins.role, model := ins.model,
      content := ins.content, timestamp := now }
  let s1 : Store := { s with turns := s.turns ++ [turn] }
  let chatTurns := s1.turns.filter (fun t => t.chatId == ins.chatId)
  if turn.role == "user" && (chatTurns.filter (fun t => t.role == "user")).length == 1 then
    (turn, updateChatTitle s1 ins.chatId (deriveTitle ins.content))
  else
    (turn, s1)

/-- MemStorage.getLastUserTurn: the user turn of the chat with the largest
timestamp, obtained by a descending sort. -/
def getLastUserTurn (s : Store) (chatId : Nat) : Option Turn :=
  (sortByTimestampDesc ((s.turns.filter (fun t => t.chatId == chatId)).filter
    (fun t => t.role == "user"))).head?

/-- MemStorage.deleteChat: when the chat exists, remove it together with
all of its turns and legacy messages and report true; otherwise report
false and leave the store unchanged. -/
def deleteChat (s : Store) (id : Nat) : Bool × Store :=
  if (s.chats.find? (fun c => c.id == id)).isSome then
    (true,
      { chats := s.chats.filter (fun c => c.id != id),
        turns := s.turns.filter (fun t => t.chatId != id),
        messages := s.messages.filter (fun m => m.chatId != id) })
  else
    (false, s)

/-- The de-duplication lookup of the streaming route: among the turns of
the requested branch, the user turns with the requested content whose
timestamp lies within the five second window, most recent first. -/
def findRecentUserTurn (existingTurns : List Turn) (content : String) (now : Nat) : Option Turn :=
  (sortByTimestampDesc (existingTurns.filter (fun t =>
    t.role == "user" && t.content == content && now - t.timestamp < 5000))).head?

/-- User-turn creation of the streaming route: reuse a recent matching
user turn of the branch when one exists, otherwise create a new one. -/
def streamUserTurn (s : Store) (chatId : Nat) (branchId : String) (content : String)
    (parentTurnId : Option String) (newId : String) (now : Nat) : Turn × Store :=
  let existingTurns := getTurnsByBranch s.turns chatId branchId
  match findRecentUserTurn existingTurns content now with
  | some t => (t, s)
  | none =>
      createTurn s
        { chatId := chatId, parentTurnId := parentTurnId, branchId := branchId,
          role := "user", model := none, content := content } newId now

/-- The accumulator patched over the outbound writer of the streaming
route: every relayed chunk whose text is truthy, in emission order, is
appended to the complete response. -/
def captureContent (chunks : List String) : String :=
  chunks.foldl (fun acc c => if c == "" then acc else acc ++ c) ""

/-- The close handler of the streaming route: when the caller disconnects
before completion, persist the accumulated content, or the interruption
sentinel when the accumulator is still falsy. -/
def sealOnDisconnect (chunks : List String) : String :=
  let completeResponse := captureContent chunks
  if completeResponse == "" then "Response interrupted" else completeResponse

/-- The terminal state of one provider task of a fan-out: the key was
missing, the generation succeeded with the full text, or the generation
failed with the message of the thrown error (already defaulted to the
fallback text when the raw message was falsy). -/
inductive ProviderOutcome where
  | noApiKey
  | success (text : String)
  | failure (errorMessage : String)
deriving DecidableEq, Repr

/-- The per-provider summary returned by one fan-out task. -/
structure ProviderResult where
  provider : String
  success : Bool
  errorMessage : Option String
  turnId : Option String
deriving DecidableEq, Repr

/-- One provider task of the fan-out route over turns: a missing key
short-circuits with a failed result and no turn; a successful generation
persists the full text as an assistant turn on the model-named branch; a
thrown error persists the error-prefixed message the same way.  No outcome
escapes the task. -/
def processProvider (s : Store) (chatId : Nat) (branchId : String) (userTurnId : String)
    (provider : String) (outcome : ProviderOutcome) (newId : String) (now : Nat) :
    ProviderResult × Store :=
  match outcome with
  | .noApiKey =>
      ({ provider := provider, success := false,
         errorMessage := some "API key not configured", turnId := none }, s)
  | .success text =>
      let modelBranchId := if branchId == "root" then provider else branchId
      let r := createTurn s
        { chatId := chatId, parentTurnId := some userTurnId, branchId := modelBranchId,
          role := "assistant", model := some provider, content := text } newId now
      ({ provider := provider, success := true, errorMessage := none,
         turnId := some r.1.id }, r.2)
  | .failure errorMessage =>
      let modelBranchId := if branchId == "root" then provider else branchId
      let r := createTurn s
        { chatId := chatId, parentTurnId := some userTurnId, branchId := modelBranchId,
          role := "assistant", model := some provider,
          content := "Error: " ++ errorMessage } newId now
      ({ provider := provider, success := false, errorMessage := some errorMessage,
         turnId := some r.1.id }, r.2)

/-- The whole fan-out over the selected providers: every task runs and
contributes a result; writes meet only in the shared store. -/
def fanOut (s : Store) (chatId : Nat) (branchId : String) (userTurnId : String)
    (tasks : List (String × ProviderOutcome × String)) (now : Nat) :
    List ProviderResult × Store :=
  match tasks with
  | [] => ([], s)
  | (provider, outcome, newId) :: rest =>
      let r := processProvider s chatId branchId userTurnId provider outcome newId now
      let rs := fanOut r.2 chatId branchId userTurnId rest now
      (r.1 :: rs.1, rs.2)

/-- One entry of the conversational context handed to a provider
capability (llm/index.ts, ConversationMessage). -/
structure ConversationMessage where
  role : String
  content : String
  modelId : Option String
deriving DecidableEq, Repr

/-- The default bound on the history handed to a provider
(llm/index.ts, DEFAULT_CONTEXT_WINDOW_SIZE). -/
def DEFAULT_CONTEXT_WINDOW_SIZE : Nat := 10

/-- The projection of a stored turn into a context entry. -/
def turnToMessage (t : Turn) : ConversationMessage :=
  { role := t.role, content := t.content, modelId := t.model }

/-- JavaScript Array.slice applied to a negated count, arr.slice(-k): for
k at least one this keeps the last min(k, length) elements; the argument
-0 equals 0, so k equal to zero returns the whole array. -/
def sliceLast (l : List Turn) (k : Nat) : List Turn :=
  if k == 0 then l else l.drop (l.length - k)

/-- llm/index.ts formatTurnsHistory: sort the turns by timestamp, keep
the slice(-contextWindowSize) suffix, and project each turn into a
context entry. -/
def formatTurnsHistory (turns : List Turn) (contextWindowSize : Nat) : List ConversationMessage :=
  if turns.isEmpty then []
  else
    let sortedTurns := sortByTimestamp turns
    let recentTurns := sliceLast sortedTurns contextWindowSize
    recentTurns.map turnToMessage

/-- The full conversation handed to a provider capability
(generateLLMResponseFromTurns and streamLLMResponseFromTurns): the
formatted history followed by the current prompt as a final user
message. -/
def buildProviderContext (prompt : String) (history : List Turn) (contextWindowSize : Nat) :
    List ConversationMessage :=
  formatTurnsHistory history contextWindowSize ++
    [{ role := "user", content := prompt, modelId := none }]

/-- The error taxonomy of the service layer (utils/errors.ts): a not-found
condition or an internal failure, each with its message. -/
inductive SvcError where
  | notFound (msg : String)
  | internal (msg : String)
deriving DecidableEq, Repr

/-- ChatService.getChat: the chat, or NotFoundError when absent. -/
def svcGetChat (s : Store) (id : Nat) : Except SvcError Chat :=
  match getChat s id with
  | none => .error (.notFound ("Chat with ID " ++ toString id ++ " not found"))
  | some c => .ok c

/-- ChatService.getTurns: all turns of an existing chat ordered by time;
NotFoundError when the chat is absent. -/
def svcGetTurns (s : Store) (chatId : Nat) : Except SvcError (List Turn) :=
  match getChat s chatId with
  | none => .error (.notFound ("Chat with ID " ++ toString chatId ++ " not found"))
  | some _ => .ok (sortByTimestamp (s.turns.filter (fun t => t.chatId == chatId)))

/-- ChatService.getTurnsByBranch: branch resolution for an existing chat;
NotFoundError when the chat is absent. -/
def svcGetTurnsByBranch (s : Store) (chatId : Nat) (branchId : String) :
    Except SvcError (List Turn) :=
  match getChat s chatId with
  | none => .error (.notFound ("Chat with ID " ++ toString chatId ++ " not found"))
  | some _ => .ok (getTurnsByBranch s.turns chatId branchId)

/-- ChatService.createTurn: validate the chat before any write;
NotFoundError aborts with the store untouched. -/
def svcCreateTurn (s : Store) (ins : InsertTurn) (newId : String) (now : Nat) :
    Except SvcError (Turn × Store) :=
  match getChat s ins.chatId with
  | none => .error (.notFound ("Chat with ID " ++ toString ins.chatId ++ " not found"))
  | some _ => .ok (createTurn s ins newId now)

/-- ChatService.deleteChat: validate the chat before deleting;
NotFoundError aborts with the store untouched. -/
def svcDeleteChat (s : Store) (id : Nat) : Except SvcError (Bool × Store) :=
  match getChat s id with
  | none => .error (.notFound ("Chat with ID " ++ toString id ++ " not found"))
  | some _ => .ok (deleteChat s id)

/-- ChatService.getLastUserTurn: the most recent user turn of an existing
chat; NotFoundError when the chat is absent. -/
def svcGetLastUserTurn (s : Store) (chatId : Nat) : Except SvcError (Option Turn) :=
  match getChat s chatId with
  | none => .error (.notFound ("Chat with ID " ++ toString chatId ++ " not found"))
  | some _ => .ok (getLastUserTurn s chatId)

/-! ## General lemmas about the embedding -/

theorem sortByTimestamp_perm (l : List Turn) : List.Perm (sortByTimestamp l) l :=
  List.perm_insertionSort tsLe l

theorem sortByTimestamp_sorted (l : List Turn) : List.Sorted tsLe (sortByTimestamp l) :=
  List.sorted_insertionSort tsLe l

theorem mem_sortByTimestamp {t : Turn} {l : List Turn} : t ∈ sortByTimestamp l ↔ t ∈ l :=
  (sortByTimestamp_perm l).mem_iff

theorem sortByTimestampDesc_perm (l : List Turn) : List.Perm (sortByTimestampDesc l) l :=
  List.perm_insertionSort tsGe l

theorem mem_sortByTimestampDesc {t : Turn} {l : List Turn} :
    t ∈ sortByTimestampDesc l ↔ t ∈ l :=
  (sortByTimestampDesc_perm l).mem_iff

theorem sorted_filter {l : List Turn} (p : Turn → Bool) (h : List.Sorted tsLe l) :
    List.Sorted tsLe (l.filter p) :=
  List.Pairwise.sublist (List.filter_sublist l) h

/-! ## C2: membership rule of a non-root branch -/

/-- C2: for branch resolution at any branch B distinct from root, a turn is
returned exactly when it belongs to the conversation and satisfies the
three-way membership rule: its branchId is B, or it is a root-branch user
turn, or it is an assistant turn of the model named B. -/
theorem nonRoot_branch_membership (allTurns : List Turn) (cid : Nat) (branchId : String)
    (hb : branchId ≠ "root") (t : Turn) :
    t ∈ getTurnsByBranch allTurns cid branchId ↔
      t ∈ allTurns ∧ t.chatId = cid ∧
        (t.branchId = branchId ∨ (t.branchId = "root" ∧ t.role = "user") ∨
          (t.role = "assistant" ∧ t.model = some branchId)) := by
  have hb2 : (branchId == "root") = false := by
    simpa using hb
  unfold getTurnsByBranch
  rw [hb2]
  simp only [Bool.false_eq_true, if_false, List.mem_filter, mem_sortByTimestamp,
    nonRootPred, Bool.or_eq_true, Bool.and_eq_true, beq_iff_eq]
  tauto

/-- Concrete instance of C2: resolving the branch grok on a sample
conversation returns the assistant turn of model grok stored on a sibling
branch, and that turn satisfies the membership rule. -/
theorem nonRoot_branch_membership_witness :
    (⟨"a2", 1, some "u1", "openai", "assistant", some "grok", "ans2", 2⟩ : Turn) ∈
      getTurnsByBranch
        [⟨"u1", 1, none, "root", "user", none, "q1", 0⟩,
         ⟨"a2", 1, some "u1", "openai", "assistant", some "grok", "ans2", 2⟩] 1 "grok" :=
  (nonRoot_branch_membership
    [⟨"u1", 1, none, "root", "user", none, "q1", 0⟩,
     ⟨"a2", 1, some "u1", "openai", "assistant", some "grok", "ans2", 2⟩] 1 "grok"
    (by decide) ⟨"a2", 1, some "u1", "openai", "assistant", some "grok", "ans2", 2⟩).mpr
    (by refine ⟨by decide, rfl, ?_⟩; right; right; exact ⟨rfl, rfl⟩)

/-! ## C6: determinism and ordering of branch resolution -/

/-- C6 counterexample: on a conversation whose second user turn is newer
than the chosen reply of the first one, trunk resolution places both user
turns before the reply, so the returned sequence is not
timestamp-ascending, refuting the ordering half of the claim at this
concrete stored state. -/
theorem branch_resolution_order_counterexample :
    ¬ (getTurnsByBranch
        [⟨"u1", 1, none, "root", "user", none, "q1", 0⟩,
         ⟨"a1", 1, some "u1", "claude", "assistant", some "claude", "ans", 1⟩,
         ⟨"u2", 1, none, "root", "user", none, "q2", 2⟩] 1 "root"
      = getTurnsByBranch
        [⟨"u1", 1, none, "root", "user", none, "q1", 0⟩,
         ⟨"a1", 1, some "u1", "claude", "assistant", some "claude", "ans", 1⟩,
         ⟨"u2", 1, none, "root", "user", none, "q2", 2⟩] 1 "root"
      ∧ List.Sorted tsLe (getTurnsByBranch
        [⟨"u1", 1, none, "root", "user", none, "q1", 0⟩,
         ⟨"a1", 1, some "u1", "claude", "assistant", some "claude", "ans", 1⟩,
         ⟨"u2", 1, none, "root", "user", none, "q2", 2⟩] 1 "root")) := by
  decide

/-- C6 amended: branch resolution is a function of the stored turns, so
repeated calls on identical state give identical sequences; the returned
order is timestamp-ascending for every branch other than root, while for
root only the user-turn prefix of the result is timestamp-ascending. -/
theorem branch_resolution_deterministic_order (allTurns : List Turn) (cid : Nat) (b : String) :
    getTurnsByBranch allTurns cid b = getTurnsByBranch allTurns cid b ∧
    (b ≠ "root" → List.Sorted tsLe (getTurnsByBranch allTurns cid b)) ∧
    List.Sorted tsLe
      (rootBranchTurns (sortByTimestamp (allTurns.filter (fun t => t.chatId == cid)))) := by
  refine ⟨rfl, ?_, ?_⟩
  · intro hb
    have hb2 : (b == "root") = false := by simpa using hb
    unfold getTurnsByBranch
    rw [hb2]
    simp only [Bool.false_eq_true, if_false]
    exact sorted_filter _ (sortByTimestamp_sorted _)
  · exact sorted_filter _ (sortByTimestamp_sorted _)

/-- Concrete instance of the amended C6: resolving the claude branch of the
sample conversation yields a timestamp-ascending sequence. -/
theorem branch_resolution_deterministic_order_witness :
    List.Sorted tsLe (getTurnsByBranch
      [⟨"u1", 1, none, "root", "user", none, "q1", 0⟩,
       ⟨"a1", 1, some "u1", "claude", "assistant", some "claude", "ans", 1⟩,
       ⟨"u2", 1, none, "root", "user", none, "q2", 2⟩] 1 "claude") :=
  (branch_resolution_deterministic_order
    [⟨"u1", 1, none, "root", "user", none, "q1", 0⟩,
     ⟨"a1", 1, some "u1", "claude", "assistant", some "claude", "ans", 1⟩,
     ⟨"u2", 1, none, "root", "user", none, "q2", 2⟩] 1 "claude").2.1 (by decide)

/-! ## C7: context window handed to a provider -/

/-- C7 counterexample: with the window size overridden to zero, the claim
asks for the last zero history entries followed by the prompt, but
slice(-0) is slice(0), so the whole history is passed and the context has
two entries instead of one. -/
theorem provider_context_counterexample :
    buildProviderContext "p" [⟨"t0", 1, none, "root", "user", none, "hi", 0⟩] 0
      ≠ [{ role := "user", content := "p", modelId := none }] := by
  decide

/-- C7 amended: for every window size of at least one, the context handed
to a provider capability is the projection of the last min(L, N) entries of
the timestamp-ascending history followed by the prompt as a final user
message; the sorted history is a timestamp-ascending permutation of the
resolved history, and the default window size is 10.  The guarantee does
not extend to a window size of zero. -/
theorem provider_context_window (prompt : String) (history : List Turn) (n : Nat)
    (hn : 1 ≤ n) :
    buildProviderContext prompt history n
      = ((sortByTimestamp history).map turnToMessage).drop (history.length - n)
          ++ [{ role := "user", content := prompt, modelId := none }] ∧
    (((sortByTimestamp history).map turnToMessage).drop (history.length - n)).length
      = min history.length n ∧
    List.Sorted tsLe (sortByTimestamp history) ∧
    List.Perm (sortByTimestamp history) history ∧
    DEFAULT_CONTEXT_WINDOW_SIZE = 10 := by
  have hlen : (sortByTimestamp history).length = history.length :=
    (sortByTimestamp_perm history).length_eq
  have hn0 : (n == 0) = false := by
    cases n with
    | zero => omega
    | succ m => rfl
  refine ⟨?_, ?_, sortByTimestamp_sorted history, sortByTimestamp_perm history, rfl⟩
  · unfold buildProviderContext formatTurnsHistory sliceLast
    by_cases hhist : history.isEmpty
    · have : history = [] := List.isEmpty_iff.mp hhist
      subst this
      simp [sortByTimestamp]
    · simp only [hhist, if_false, hn0, Bool.false_eq_true, hlen, List.map_drop]
  · simp only [List.length_drop, List.length_map, hlen]
    omega

/-- Concrete instance of the amended C7: with a two-turn history and the
default window size, the context is the whole sorted history followed by
the prompt. -/
theorem provider_context_window_witness :
    buildProviderContext "p"
        [⟨"u1", 1, none, "root", "user", none, "q1", 0⟩,
         ⟨"a1", 1, some "u1", "claude", "assistant", some "claude", "ans", 1⟩] 10
      = ((sortByTimestamp
          [⟨"u1", 1, none, "root", "user", none, "q1", 0⟩,
           ⟨"a1", 1, some "u1", "claude", "assistant", some "claude", "ans", 1⟩]).map
            turnToMessage).drop
          (([⟨"u1", 1, none, "root", "user", none, "q1", 0⟩,
             ⟨"a1", 1, some "u1", "claude", "assistant", some "claude", "ans", 1⟩] :
              List Turn).length - 10)
        ++ [{ role := "user", content := "p", modelId := none }] :=
  (provider_context_window "p"
    [⟨"u1", 1, none, "root", "user", none, "q1", 0⟩,
     ⟨"a1", 1, some "u1", "claude", "assistant", some "claude", "ans", 1⟩] 10
    (by decide)).1

/-! ## C4: durability of a disconnected stream -/

theorem captureContent_eq_concat (chunks : List String) :
    captureContent chunks = chunks.foldl (fun acc c => acc ++ c) "" := by
  unfold captureContent
  suffices h : ∀ acc : String,
      chunks.foldl (fun acc c => if c == "" then acc else acc ++ c) acc
        = chunks.foldl (fun acc c => acc ++ c) acc from h ""
  induction chunks with
  | nil => intro acc; rfl
  | cons c cs ih =>
    intro acc
    by_cases hc : c = ""
    · subst hc
      simp only [List.foldl_cons, ih]
      simp
    · have hc2 : (c == "") = false := by simpa using hc
      simp only [List.foldl_cons, hc2, Bool.false_eq_true, if_false, ih]

/-- C4 counterexample: a session that emitted exactly one chunk, the empty
string, is sealed with the interruption sentinel rather than with the
concatenation of its chunks, refuting the claim for a positive chunk count
with empty concatenation. -/
theorem disconnect_seal_counterexample :
    ([""] : List String).length > 0 ∧
    sealOnDisconnect [""] = "Response interrupted" ∧
    sealOnDisconnect [""] ≠ ([""] : List String).foldl (fun acc c => acc ++ c) "" := by
  refine ⟨by decide, rfl, by decide⟩

/-- C4 amended: when the caller disconnects, the sealed content equals the
concatenation of the emitted chunks in emission order whenever that
concatenation is nonempty, and equals the sentinel Response interrupted
when the concatenation is empty, in particular when no chunk was emitted;
the sealed content is never the empty string. -/
theorem disconnect_seal (chunks : List String) :
    (chunks.foldl (fun acc c => acc ++ c) "" ≠ "" →
      sealOnDisconnect chunks = chunks.foldl (fun acc c => acc ++ c) "") ∧
    (chunks.foldl (fun acc c => acc ++ c) "" = "" →
      sealOnDisconnect chunks = "Response interrupted") ∧
    sealOnDisconnect chunks ≠ "" := by
  unfold sealOnDisconnect
  rw [captureContent_eq_concat]
  by_cases h : chunks.foldl (fun acc c => acc ++ c) "" = ""
  · rw [h]
    refine ⟨fun hne => absurd rfl hne, fun _ => rfl, by decide⟩
  · have h2 : (chunks.foldl (fun acc c => acc ++ c) "" == "") = false := by simpa using h
    simp [h2, h]

/-- Concrete instance of the amended C4: three chunks are sealed as their
concatenation. -/
theorem disconnect_seal_witness :
    sealOnDisconnect ["The answer", " is", " 4."]
      = (["The answer", " is", " 4."] : List String).foldl (fun acc c => acc ++ c) "" :=
  (disconnect_seal ["The answer", " is", " 4."]).1 (by decide)

/-! ## C5: partial-failure isolation of a fan-out -/

/-- C5: in a fan-out where provider A fails and provider B succeeds, the
run completes with one result per provider, the turn of A is persisted
with the error-prefixed message, the turn of B is persisted with the full
generated text, and both turns are in the store afterwards; the failure
of A neither aborts B nor the request. -/
theorem fanout_partial_failure_isolation (s : Store) (cid : Nat) (b : String)
    (uid A B msgA text idA idB : String) (now : Nat) :
    fanOut s cid b uid [(A, .failure msgA, idA), (B, .success text, idB)] now
      = ([{ provider := A, success := false, errorMessage := some msgA, turnId := some idA },
          { provider := B, success := true, errorMessage := none, turnId := some idB }],
         { s with turns := s.turns ++
            [⟨idA, cid, some uid, if b == "root" then A else b, "assistant", some A,
                "Error: " ++ msgA, now⟩,
             ⟨idB, cid, some uid, if b == "root" then B else b, "assistant", some B,
                text, now⟩] })
      ∧ (⟨idA, cid, some uid, if b == "root" then A else b, "assistant", some A,
            "Error: " ++ msgA, now⟩ : Turn)
          ∈ (fanOut s cid b uid [(A, .failure msgA, idA), (B, .success text, idB)] now).2.turns
      ∧ (⟨idB, cid, some uid, if b == "root" then B else b, "assistant", some B,
            text, now⟩ : Turn)
          ∈ (fanOut s cid b uid [(A, .failure msgA, idA), (B, .success text, idB)] now).2.turns
      ∧ (fanOut s cid b uid [(A, .failure msgA, idA), (B, .success text, idB)] now).1.length
          = 2 := by
  have hmain :
      fanOut s cid b uid [(A, .failure msgA, idA), (B, .success text, idB)] now
        = ([{ provider := A, success := false, errorMessage := some msgA, turnId := some idA },
            { provider := B, success := true, errorMessage := none, turnId := some idB }],
           { s with turns := s.turns ++
              [⟨idA, cid, some uid, if b == "root" then A else b, "assistant", some A,
                  "Error: " ++ msgA, now⟩,
               ⟨idB, cid, some uid, if b == "root" then B else b, "assistant", some B,
                  text, now⟩] }) := by
    simp [fanOut, processProvider, createTurn, updateChatTitle]
  refine ⟨hmain, ?_, ?_, ?_⟩
  · rw [hmain]; simp
  · rw [hmain]; simp
  · rw [hmain]
    rfl

/-! ## C8: operations against a missing conversation -/

/-- C8: every chat or turn service operation invoked with a conversation
id for which no chat exists fails with the NotFound error and returns no
new store, so no side effect reaches storage. -/
theorem service_not_found (s : Store) (cid : Nat) (b : String) (ins : InsertTurn)
    (newId : String) (now : Nat) (h : getChat s cid = none) (hins : ins.chatId = cid) :
    svcGetChat s cid = .error (.notFound ("Chat with ID " ++ toString cid ++ " not found")) ∧
    svcGetTurns s cid = .error (.notFound ("Chat with ID " ++ toString cid ++ " not found")) ∧
    svcGetTurnsByBranch s cid b
      = .error (.notFound ("Chat with ID " ++ toString cid ++ " not found")) ∧
    svcCreateTurn s ins newId now
      = .error (.notFound ("Chat with ID " ++ toString cid ++ " not found")) ∧
    svcDeleteChat s cid = .error (.notFound ("Chat with ID " ++ toString cid ++ " not found")) ∧
    svcGetLastUserTurn s cid
      = .error (.notFound ("Chat with ID " ++ toString cid ++ " not found")) := by
  subst hins
  refine ⟨?_, ?_, ?_, ?_, ?_, ?_⟩ <;>
    simp [svcGetChat, svcGetTurns, svcGetTurnsByBranch, svcCreateTurn, svcDeleteChat,
      svcGetLastUserTurn, h]

/-- Concrete instance of C8: creating a turn in the missing chat 42 of an
empty store fails with NotFound. -/
theorem service_not_found_witness :
    svcCreateTurn ⟨[], [], []⟩ ⟨42, none, "root", "user", none, "hi"⟩ "t1" 0
      = .error (.notFound ("Chat with ID " ++ toString 42 ++ " not found")) :=
  (service_not_found ⟨[], [], []⟩ 42 "root" ⟨42, none, "root", "user", none, "hi"⟩ "t1" 0
    rfl rfl).2.2.2.1

/-! ## C9: title derivation from the first user turn -/

theorem createTurn_fst (s : Store) (ins : InsertTurn) (newId : String) (now : Nat) :
    (createTurn s ins newId now).1
      = ⟨newId, ins.chatId, ins.parentTurnId, ins.branchId, ins.role, ins.model,
         ins.content, now⟩ := by
  unfold createTurn
  dsimp only
  split <;> rfl

theorem createTurn_turns (s : Store) (ins : InsertTurn) (newId : String) (now : Nat) :
    (createTurn s ins newId now).2.turns
      = s.turns ++ [⟨newId, ins.chatId, ins.parentTurnId, ins.branchId, ins.role, ins.model,
         ins.content, now⟩] := by
  unfold createTurn
  dsimp only
  split <;> rfl

theorem find?_map_title (l : List Chat) (id : Nat) (title : String) (c : Chat)
    (h : l.find? (fun c => c.id == id) = some c) :
    (l.map (fun c => if c.id == id then { c with title := title } else c)).find?
      (fun c => c.id == id) = some { c with title := title } := by
  induction l with
  | nil => simp at h
  | cons a l ih =>
    rw [List.find?_cons] at h
    by_cases ha : (a.id == id) = true
    · simp only [ha] at h
      have hc : a = c := by
        cases h; rfl
      subst hc
      simp only [List.map_cons, ha, if_true]
      rw [List.find?_cons]
      simp [ha]
    · have ha2 : (a.id == id) = false := by
        simpa using ha
      simp only [ha2] at h
      simp only [List.map_cons, ha2, Bool.false_eq_true, if_false]
      rw [List.find?_cons]
      simp only [ha2]
      exact ih h

/-- C9: appending the first user turn of a conversation sets the chat
title derived from its content, the content itself when it has at most 30
characters and its first 30 characters followed by the ellipsis marker
otherwise; appending an assistant turn, or a user turn when the chat
already holds one, leaves every chat record unchanged. -/
theorem first_user_turn_sets_title (s : Store) (c : Chat) (ins : InsertTurn)
    (newId : String) (now : Nat) :
    (ins.role = "user" →
      getChat s ins.chatId = some c →
      (∀ t ∈ s.turns, t.chatId = ins.chatId → t.role ≠ "user") →
      getChat (createTurn s ins newId now).2 ins.chatId
        = some { c with title := deriveTitle ins.content }) ∧
    ((ins.role ≠ "user" ∨ ∃ t ∈ s.turns, t.chatId = ins.chatId ∧ t.role = "user") →
      (createTurn s ins newId now).2.chats = s.chats) ∧
    (ins.content.data.length ≤ 30 → deriveTitle ins.content = ins.content) ∧
    (30 < ins.content.data.length →
      deriveTitle ins.content = String.mk (ins.content.data.take 30) ++ "...") := by
  refine ⟨?_, ?_, ?_, ?_⟩
  · intro hrole hchat hnone
    have hrb : (ins.role == "user") = true := by simp [hrole]
    have h1 : (s.turns.filter (fun t => t.chatId == ins.chatId)).filter
        (fun t => t.role == "user") = [] := by
      refine List.filter_eq_nil_iff.mpr ?_
      intro t ht
      have ht1 := List.mem_filter.mp ht
      have htc : t.chatId = ins.chatId := by simpa using ht1.2
      have := hnone t ht1.1 htc
      simpa using this
    unfold createTurn
    dsimp only
    rw [List.filter_append, List.filter_append, h1]
    simp only [List.nil_append, List.filter_cons, List.filter_nil, beq_self_eq_true,
      if_true, hrb, List.length_cons, List.length_nil, Nat.reduceBEq, Bool.and_self,
      Bool.and_true]
    unfold getChat updateChatTitle at *
    exact find?_map_title s.chats ins.chatId (deriveTitle ins.content) c hchat
  · intro hdisj
    by_cases hr : ins.role = "user"
    · obtain ⟨t, ht, htc, htr⟩ := hdisj.resolve_left (not_not_intro hr)
      have hrb : (ins.role == "user") = true := by simp [hr]
      have htmem : t ∈ (s.turns.filter (fun t => t.chatId == ins.chatId)).filter
          (fun t => t.role == "user") := by
        refine List.mem_filter.mpr ⟨List.mem_filter.mpr ⟨ht, by simp [htc]⟩, by simp [htr]⟩
      have hpos : 0 < ((s.turns.filter (fun t => t.chatId == ins.chatId)).filter
          (fun t => t.role == "user")).length := List.length_pos_of_mem htmem
      unfold createTurn
      dsimp only
      rw [List.filter_append, List.filter_append]
      simp only [List.filter_cons, List.filter_nil, beq_self_eq_true, if_true, hrb]
      simp only [List.length_append, List.length_cons, List.length_nil]
      have hne : (((s.turns.filter (fun t => t.chatId == ins.chatId)).filter
          (fun t => t.role == "user")).length + (0 + 1) == 1) = false := by
        refine beq_eq_false_iff_ne.mpr ?_
        omega
      rw [hne]
      simp
    · have hrb : (ins.role == "user") = false := by simpa using hr
      unfold createTurn
      dsimp only
      rw [hrb]
      simp
  · intro h
    have h2 : ¬ (30 < ins.content.data.length) := Nat.not_lt.mpr h
    simp only [deriveTitle, if_neg h2, List.take_of_length_le h]
    simp
  · intro h
    simp only [deriveTitle, if_pos h]

/-- Concrete instance of C9: the first user turn of chat 1 retitles it to
its content. -/
theorem first_user_turn_sets_title_witness :
    getChat (createTurn ⟨[⟨1, "New Conversation", 0⟩], [], []⟩
        ⟨1, none, "root", "user", none, "hello"⟩ "u1" 5).2 1
      = some ⟨1, deriveTitle "hello", 0⟩ :=
  (first_user_turn_sets_title ⟨[⟨1, "New Conversation", 0⟩], [], []⟩ ⟨1, "New Conversation", 0⟩
    ⟨1, none, "root", "user", none, "hello"⟩ "u1" 5).1 rfl rfl (by simp)

/-! ## C10: deletion of a conversation and its frame -/

/-- C10: deleting an existing conversation reports true and removes its
chat record, turns and legacy messages while leaving the records of every
other conversation unchanged; deleting a missing conversation id reports
false and leaves the whole store unchanged. -/
theorem delete_chat_frame (s : Store) (id idOther : Nat) (hne : idOther ≠ id) :
    ((s.chats.find? (fun c => c.id == id)).isSome = true →
      (deleteChat s id).1 = true ∧
      (∀ c ∈ (deleteChat s id).2.chats, c.id ≠ id) ∧
      (∀ t ∈ (deleteChat s id).2.turns, t.chatId ≠ id) ∧
      (∀ m ∈ (deleteChat s id).2.messages, m.chatId ≠ id) ∧
      (deleteChat s id).2.chats.filter (fun c => c.id == idOther)
        = s.chats.filter (fun c => c.id == idOther) ∧
      (deleteChat s id).2.turns.filter (fun t => t.chatId == idOther)
        = s.turns.filter (fun t => t.chatId == idOther) ∧
      (deleteChat s id).2.messages.filter (fun m => m.chatId == idOther)
        = s.messages.filter (fun m => m.chatId == idOther)) ∧
    (s.chats.find? (fun c => c.id == id) = none →
      deleteChat s id = (false, s)) := by
  constructor
  · intro hex
    unfold deleteChat
    rw [if_pos hex]
    refine ⟨rfl, ?_, ?_, ?_, ?_, ?_, ?_⟩
    · intro c hc
      have := (List.mem_filter.mp hc).2
      simpa using this
    · intro t ht
      have := (List.mem_filter.mp ht).2
      simpa using this
    · intro m hm
      have := (List.mem_filter.mp hm).2
      simpa using this
    · rw [List.filter_filter]
      refine List.filter_congr ?_
      intro c _
      by_cases hco : c.id = idOther
      · simp [hco, hne]
      · simp [hco]
    · rw [List.filter_filter]
      refine List.filter_congr ?_
      intro t _
      by_cases hto : t.chatId = idOther
      · simp [hto, hne]
      · simp [hto]
    · rw [List.filter_filter]
      refine List.filter_congr ?_
      intro m _
      by_cases hmo : m.chatId = idOther
      · simp [hmo, hne]
      · simp [hmo]
  · intro hnone
    unfold deleteChat
    rw [if_neg (by simp [hnone])]

/-- Concrete instance of C10: deleting chat 1 of a two-chat store reports
true and keeps the turn of chat 2. -/
theorem delete_chat_frame_witness :
    (deleteChat ⟨[⟨1, "a", 0⟩, ⟨2, "b", 0⟩],
        [⟨"t1", 1, none, "root", "user", none, "x", 0⟩,
         ⟨"t2", 2, none, "root", "user", none, "y", 0⟩], []⟩ 1).2.turns.filter
          (fun t => t.chatId == 2)
      = ([⟨"t1", 1, none, "root", "user", none, "x", 0⟩,
          ⟨"t2", 2, none, "root", "user", none, "y", 0⟩] : List Turn).filter
          (fun t => t.chatId == 2) :=
  (((delete_chat_frame ⟨[⟨1, "a", 0⟩, ⟨2, "b", 0⟩],
        [⟨"t1", 1, none, "root", "user", none, "x", 0⟩,
         ⟨"t2", 2, none, "root", "user", none, "y", 0⟩], []⟩ 1 2 (by decide)).1
    (by decide)).2.2.2.2.2).1

/-! ## C1: at most one assistant reply per user turn on the trunk -/

theorem pickResponse_spec {chatTurns : List Turn} {u r : Turn}
    (h : pickResponse chatTurns u = some r) :
    r ∈ chatTurns ∧ r.role = "assistant" ∧ r.parentTurnId = some u.id := by
  unfold pickResponse at h
  dsimp only at h
  have hmem : r ∈ chatTurns.filter (fun t =>
      t.role == "assistant" && t.parentTurnId == some u.id) := by
    rcases hf : (chatTurns.filter (fun t =>
        t.role == "assistant" && t.parentTurnId == some u.id)).find?
        (fun r => r.model == some r.branchId) with _ | w
    · rw [hf] at h
      exact List.mem_of_mem_head? h
    · rw [hf] at h
      cases h
      exact List.mem_of_find?_eq_some hf
  have hp := List.mem_filter.mp hmem
  refine ⟨hp.1, ?_, ?_⟩
  · have := hp.2
    simp only [Bool.and_eq_true, beq_iff_eq] at this
    exact this.1
  · have := hp.2
    simp only [Bool.and_eq_true, beq_iff_eq] at this
    exact this.2

theorem filter_filterMap_pick_nil (chatTurns rest : List Turn) (uid : String)
    (hno : ∀ x ∈ rest, x.id ≠ uid) :
    (rest.filterMap (pickResponse chatTurns)).filter
      (fun t => t.role == "assistant" && t.parentTurnId == some uid) = [] := by
  refine List.filter_eq_nil_iff.mpr ?_
  intro w hw
  obtain ⟨x, hx, hpx⟩ := List.mem_filterMap.mp hw
  have hparent := (pickResponse_spec hpx).2.2
  have hxid := hno x hx
  simp [hparent, hxid]

theorem filter_filterMap_pick (chatTurns : List Turn) (users : List Turn) (u : Turn)
    (hu : u ∈ users) (hnd : (users.map Turn.id).Nodup) :
    (users.filterMap (pickResponse chatTurns)).filter
        (fun t => t.role == "assistant" && t.parentTurnId == some u.id)
      = (pickResponse chatTurns u).toList := by
  induction users with
  | nil => cases hu
  | cons v rest ih =>
    rw [List.map_cons, List.nodup_cons] at hnd
    by_cases hidv : v.id = u.id
    · have huv : u = v := by
        rcases List.mem_cons.mp hu with h | h
        · exact h
        · exact absurd (hidv ▸ List.mem_map_of_mem Turn.id h) hnd.1
      subst huv
      have hrest : ∀ x ∈ rest, x.id ≠ u.id := by
        intro x hx he
        exact hnd.1 (hidv ▸ he ▸ List.mem_map_of_mem Turn.id hx)
      rw [List.filterMap_cons]
      rcases hp : pickResponse chatTurns u with _ | r
      · simpa using filter_filterMap_pick_nil chatTurns rest u.id hrest
      · have hr := pickResponse_spec hp
        have hPr : (r.role == "assistant" && r.parentTurnId == some u.id) = true := by
          simp [hr.2.1, hr.2.2]
        rw [List.filter_cons, hPr]
        simpa using filter_filterMap_pick_nil chatTurns rest u.id hrest
    · have hurest : u ∈ rest := by
        rcases List.mem_cons.mp hu with h | h
        · exact absurd (by rw [h]) hidv
        · exact h
      rw [List.filterMap_cons]
      rcases hp : pickResponse chatTurns v with _ | r
      · exact ih hurest hnd.2
      · have hparent := (pickResponse_spec hp).2.2
        have hPr : (r.role == "assistant" && r.parentTurnId == some u.id) = false := by
          simp [hparent, hidv]
        rw [List.filter_cons, hPr]
        simpa using ih hurest hnd.2

/-- C1: in trunk resolution, the assistant replies returned for a stored
root-branch user turn are exactly the one reply selected by the canonical
rule, which prefers the reply whose branchId equals its own model and
falls back to the first reply found; in particular at most one assistant
reply per root-branch user turn is returned even when several replies
share that parent. -/
theorem trunk_single_reply (allTurns : List Turn) (cid : Nat) (u : Turn)
    (hids : (allTurns.map Turn.id).Nodup) (hu : u ∈ allTurns) (hcid : u.chatId = cid)
    (hrole : u.role = "user") (hbr : u.branchId = "root") :
    (getTurnsByBranch allTurns cid "root").filter
        (fun t => t.role == "assistant" && t.parentTurnId == some u.id)
      = (pickResponse (sortByTimestamp (allTurns.filter (fun t => t.chatId == cid))) u).toList ∧
    ((getTurnsByBranch allTurns cid "root").filter
        (fun t => t.role == "assistant" && t.parentTurnId == some u.id)).length ≤ 1 := by
  have hroot : getTurnsByBranch allTurns cid "root"
      = resolveRoot (sortByTimestamp (allTurns.filter (fun t => t.chatId == cid))) := by
    unfold getTurnsByBranch
    simp
  set chatTurns := sortByTimestamp (allTurns.filter (fun t => t.chatId == cid)) with hct
  have huct : u ∈ chatTurns := by
    rw [hct]
    exact mem_sortByTimestamp.mpr (List.mem_filter.mpr ⟨hu, by simp [hcid]⟩)
  have huusers : u ∈ rootBranchTurns chatTurns :=
    List.mem_filter.mpr ⟨huct, by simp [hrole, hbr]⟩
  have h1 : ((allTurns.filter (fun t => t.chatId == cid)).map Turn.id).Nodup :=
    hids.sublist ((List.filter_sublist allTurns).map Turn.id)
  have h2 : (chatTurns.map Turn.id).Nodup :=
    (((sortByTimestamp_perm (allTurns.filter (fun t => t.chatId == cid))).map
      Turn.id).nodup_iff).mpr h1
  have hnd : ((rootBranchTurns chatTurns).map Turn.id).Nodup :=
    h2.sublist ((List.filter_sublist chatTurns).map Turn.id)
  have husers_nil : (rootBranchTurns chatTurns).filter
      (fun t => t.role == "assistant" && t.parentTurnId == some u.id) = [] := by
    refine List.filter_eq_nil_iff.mpr ?_
    intro t ht
    have hp := (List.mem_filter.mp ht).2
    simp only [Bool.and_eq_true, beq_iff_eq] at hp
    simp [hp.1]
  rw [hroot]
  unfold resolveRoot
  rw [List.filter_append, husers_nil, List.nil_append,
    filter_filterMap_pick chatTurns _ u huusers hnd]
  refine ⟨rfl, ?_⟩
  rcases pickResponse chatTurns u with _ | r <;> simp

/-- Concrete instance of C1: with two replies under the single root user
turn, trunk resolution keeps exactly the reply whose branchId equals its
model even though the other reply is older. -/
theorem trunk_single_reply_witness :
    (getTurnsByBranch
        [⟨"u1", 1, none, "root", "user", none, "q1", 0⟩,
         ⟨"a2", 1, some "u1", "openai", "assistant", some "grok", "ans2", 1⟩,
         ⟨"a1", 1, some "u1", "claude", "assistant", some "claude", "ans1", 2⟩] 1 "root").filter
        (fun t => t.role == "assistant" && t.parentTurnId == some "u1")
      = (pickResponse (sortByTimestamp
          (([⟨"u1", 1, none, "root", "user", none, "q1", 0⟩,
             ⟨"a2", 1, some "u1", "openai", "assistant", some "grok", "ans2", 1⟩,
             ⟨"a1", 1, some "u1", "claude", "assistant", some "claude", "ans1", 2⟩] :
              List Turn).filter (fun t => t.chatId == 1)))
          ⟨"u1", 1, none, "root", "user", none, "q1", 0⟩).toList :=
  (trunk_single_reply
    [⟨"u1", 1, none, "root", "user", none, "q1", 0⟩,
     ⟨"a2", 1, some "u1", "openai", "assistant", some "grok", "ans2", 1⟩,
     ⟨"a1", 1, some "u1", "claude", "assistant", some "claude", "ans1", 2⟩] 1
    ⟨"u1", 1, none, "root", "user", none, "q1", 0⟩
    (by decide) (by decide) rfl rfl rfl).1

/-! ## C3: idempotent user-turn creation in the streaming route -/

theorem mem_of_mem_getTurnsByBranch {allTurns : List Turn} {cid : Nat} {b : String} {t : Turn}
    (h : t ∈ getTurnsByBranch allTurns cid b) : t ∈ allTurns ∧ t.chatId = cid := by
  have hchat : ∀ x ∈ sortByTimestamp (allTurns.filter (fun t => t.chatId == cid)),
      x ∈ allTurns ∧ x.chatId = cid := by
    intro x hx
    have := List.mem_filter.mp (mem_sortByTimestamp.mp hx)
    exact ⟨this.1, by simpa using this.2⟩
  unfold getTurnsByBranch at h
  by_cases hb : (b == "root") = true
  · rw [if_pos hb] at h
    unfold resolveRoot at h
    rcases List.mem_append.mp h with h | h
    · exact hchat t (List.mem_filter.mp h).1
    · obtain ⟨v, _, hpv⟩ := List.mem_filterMap.mp h
      exact hchat t (pickResponse_spec hpv).1
  · rw [if_neg hb] at h
    exact hchat t (List.mem_filter.mp h).1

theorem user_turn_mem_getTurnsByBranch {allTurns : List Turn} {cid : Nat} {b : String} {t : Turn}
    (ht : t ∈ allTurns) (hcid : t.chatId = cid) (hrole : t.role = "user")
    (hbr : t.branchId = b) :
    t ∈ getTurnsByBranch allTurns cid b := by
  have htc : t ∈ sortByTimestamp (allTurns.filter (fun t => t.chatId == cid)) :=
    mem_sortByTimestamp.mpr (List.mem_filter.mpr ⟨ht, by simp [hcid]⟩)
  unfold getTurnsByBranch
  by_cases hb : (b == "root") = true
  · rw [if_pos hb]
    unfold resolveRoot
    refine List.mem_append.mpr (Or.inl ?_)
    refine List.mem_filter.mpr ⟨htc, ?_⟩
    have hb2 : b = "root" := by simpa using hb
    simp [hrole, hbr, hb2]
  · rw [if_neg hb]
    refine List.mem_filter.mpr ⟨htc, ?_⟩
    simp [nonRootPred, hbr]

theorem findRecentUserTurn_eq_none (existingTurns : List Turn) (content : String) (now : Nat)
    (h : ∀ t ∈ existingTurns,
      ¬(t.role = "user" ∧ t.content = content ∧ now - t.timestamp < 5000)) :
    findRecentUserTurn existingTurns content now = none := by
  unfold findRecentUserTurn
  have hf : existingTurns.filter (fun t =>
      t.role == "user" && t.content == content && now - t.timestamp < 5000) = [] := by
    refine List.filter_eq_nil_iff.mpr ?_
    intro t ht hc
    simp only [Bool.and_eq_true, beq_iff_eq, decide_eq_true_eq] at hc
    exact h t ht ⟨hc.1.1, hc.1.2, hc.2⟩
  rw [hf]
  rfl

theorem findRecentUserTurn_eq_some (existingTurns : List Turn) (content : String) (now : Nat)
    (u : Turn) (hmem : u ∈ existingTurns)
    (hu : u.role = "user" ∧ u.content = content ∧ now - u.timestamp < 5000)
    (huniq : ∀ t ∈ existingTurns,
      t.role = "user" → t.content = content → now - t.timestamp < 5000 → t = u) :
    findRecentUserTurn existingTurns content now = some u := by
  unfold findRecentUserTurn
  set m := existingTurns.filter (fun t =>
    t.role == "user" && t.content == content && now - t.timestamp < 5000) with hm
  have humem : u ∈ m := by
    rw [hm]
    exact List.mem_filter.mpr ⟨hmem, by simp [hu.1, hu.2.1, hu.2.2]⟩
  have hall : ∀ t ∈ m, t = u := by
    intro t ht
    rw [hm] at ht
    obtain ⟨ht1, ht2⟩ := List.mem_filter.mp ht
    simp only [Bool.and_eq_true, beq_iff_eq, decide_eq_true_eq] at ht2
    exact huniq t ht1 ht2.1.1 ht2.1.2 ht2.2
  rcases hsd : sortByTimestampDesc m with _ | ⟨a, l⟩
  · exfalso
    have hu2 : u ∈ sortByTimestampDesc m := mem_sortByTimestampDesc.mpr humem
    rw [hsd] at hu2
    cases hu2
  · have ha : a ∈ sortByTimestampDesc m := by
      rw [hsd]
      exact List.mem_cons_self a l
    have hau : a = u := hall a (mem_sortByTimestampDesc.mp ha)
    rw [List.head?_cons, hau]

/-- C3: for two streaming requests carrying identical conversation, branch
and prompt content against a store holding no other matching user turn:
the first request creates the user turn; a second request arriving while
that turn is less than five seconds old reuses it and exactly one matching
user turn exists; a second request arriving at or past the five second
window creates a second, distinct user turn, leaving two. -/
theorem stream_user_turn_dedup (s0 : Store) (cid : Nat) (b content : String)
    (p1 p2 : Option String) (id1 id2 : String) (t1 t2 : Nat)
    (hclean : ∀ t ∈ s0.turns, t.chatId = cid → t.role = "user" → t.content ≠ content) :
    (streamUserTurn s0 cid b content p1 id1 t1).1
        = ⟨id1, cid, p1, b, "user", none, content, t1⟩ ∧
    (streamUserTurn s0 cid b content p1 id1 t1).2.turns
        = s0.turns ++ [⟨id1, cid, p1, b, "user", none, content, t1⟩] ∧
    (t2 - t1 < 5000 →
      streamUserTurn (streamUserTurn s0 cid b content p1 id1 t1).2 cid b content p2 id2 t2
        = ((streamUserTurn s0 cid b content p1 id1 t1).1,
           (streamUserTurn s0 cid b content p1 id1 t1).2) ∧
      ((streamUserTurn s0 cid b content p1 id1 t1).2.turns.filter
          (fun t => t.chatId == cid && t.role == "user" && t.content == content)).length
        = 1) ∧
    (5000 ≤ t2 - t1 →
      (streamUserTurn (streamUserTurn s0 cid b content p1 id1 t1).2 cid b content p2 id2 t2).1
          = ⟨id2, cid, p2, b, "user", none, content, t2⟩ ∧
      (streamUserTurn (streamUserTurn s0 cid b content p1 id1 t1).2 cid b content
          p2 id2 t2).2.turns
        = s0.turns ++ [⟨id1, cid, p1, b, "user", none, content, t1⟩,
                       ⟨id2, cid, p2, b, "user", none, content, t2⟩] ∧
      (⟨id2, cid, p2, b, "user", none, content, t2⟩ : Turn)
          ≠ ⟨id1, cid, p1, b, "user", none, content, t1⟩ ∧
      ((streamUserTurn (streamUserTurn s0 cid b content p1 id1 t1).2 cid b content
          p2 id2 t2).2.turns.filter
          (fun t => t.chatId == cid && t.role == "user" && t.content == content)).length
        = 2) := by
  have hfr1 : findRecentUserTurn (getTurnsByBranch s0.turns cid b) content t1 = none := by
    refine findRecentUserTurn_eq_none _ _ _ ?_
    rintro t ht ⟨hr, hc, _⟩
    obtain ⟨hmem, hcid⟩ := mem_of_mem_getTurnsByBranch ht
    exact hclean t hmem hcid hr hc
  have hstep1 : streamUserTurn s0 cid b content p1 id1 t1
      = createTurn s0 ⟨cid, p1, b, "user", none, content⟩ id1 t1 := by
    unfold streamUserTurn
    dsimp only
    rw [hfr1]
  have hA : (streamUserTurn s0 cid b content p1 id1 t1).1
      = ⟨id1, cid, p1, b, "user", none, content, t1⟩ := by
    rw [hstep1, createTurn_fst]
  have hB : (streamUserTurn s0 cid b content p1 id1 t1).2.turns
      = s0.turns ++ [⟨id1, cid, p1, b, "user", none, content, t1⟩] := by
    rw [hstep1, createTurn_turns]
  have h0 : s0.turns.filter
      (fun t => t.chatId == cid && t.role == "user" && t.content == content) = [] := by
    refine List.filter_eq_nil_iff.mpr ?_
    intro t ht hc
    simp only [Bool.and_eq_true, beq_iff_eq] at hc
    exact hclean t ht hc.1.1 hc.1.2 hc.2
  set s1 := (streamUserTurn s0 cid b content p1 id1 t1).2 with hs1
  refine ⟨hA, hB, ?_, ?_⟩
  · intro hwin
    have hu1mem : (⟨id1, cid, p1, b, "user", none, content, t1⟩ : Turn)
        ∈ getTurnsByBranch s1.turns cid b := by
      refine user_turn_mem_getTurnsByBranch ?_ rfl rfl rfl
      rw [hB]
      simp
    have hfr2 : findRecentUserTurn (getTurnsByBranch s1.turns cid b) content t2
        = some ⟨id1, cid, p1, b, "user", none, content, t1⟩ := by
      refine findRecentUserTurn_eq_some _ _ _ _ hu1mem ⟨rfl, rfl, hwin⟩ ?_
      intro t ht hr hc hw
      obtain ⟨hmem, hcid⟩ := mem_of_mem_getTurnsByBranch ht
      rw [hB] at hmem
      rcases List.mem_append.mp hmem with h | h
      · exact absurd hc (hclean t h hcid hr)
      · simpa using h
    have hstep2 : streamUserTurn s1 cid b content p2 id2 t2
        = (⟨id1, cid, p1, b, "user", none, content, t1⟩, s1) := by
      unfold streamUserTurn
      dsimp only
      rw [hfr2]
    refine ⟨?_, ?_⟩
    · rw [hstep2, hA]
    · rw [hB, List.filter_append, h0]
      simp
  · intro hout
    have hfr2 : findRecentUserTurn (getTurnsByBranch s1.turns cid b) content t2 = none := by
      refine findRecentUserTurn_eq_none _ _ _ ?_
      rintro t ht ⟨hr, hc, hw⟩
      obtain ⟨hmem, hcid⟩ := mem_of_mem_getTurnsByBranch ht
      rw [hB] at hmem
      rcases List.mem_append.mp hmem with h | h
      · exact (hclean t h hcid hr) hc
      · have ht1 : t = ⟨id1, cid, p1, b, "user", none, content, t1⟩ := by
          simpa using h
        rw [ht1] at hw
        exact absurd hw (Nat.not_lt.mpr hout)
    have hstep2 : streamUserTurn s1 cid b content p2 id2 t2
        = createTurn s1 ⟨cid, p2, b, "user", none, content⟩ id2 t2 := by
      unfold streamUserTurn
      dsimp only
      rw [hfr2]
    refine ⟨?_, ?_, ?_, ?_⟩
    · rw [hstep2, createTurn_fst]
    · rw [hstep2, createTurn_turns, hB]
      simp
    · intro he
      have ht := congrArg Turn.timestamp he
      simp only [] at ht
      omega
    · rw [hstep2, createTurn_turns, hB, List.append_assoc, List.filter_append, h0]
      simp

/-- Concrete instance of C3: a second identical request four seconds after
the first reuses the created user turn and leaves the store unchanged. -/
theorem stream_user_turn_dedup_witness :
    streamUserTurn (streamUserTurn ⟨[⟨1, "t", 0⟩], [], []⟩ 1 "root" "q" none "u1" 0).2
        1 "root" "q" none "u2" 4000
      = ((streamUserTurn ⟨[⟨1, "t", 0⟩], [], []⟩ 1 "root" "q" none "u1" 0).1,
         (streamUserTurn ⟨[⟨1, "t", 0⟩], [], []⟩ 1 "root" "q" none "u1" 0).2) :=
  ((stream_user_turn_dedup ⟨[⟨1, "t", 0⟩], [], []⟩ 1 "root" "q" none none "u1" "u2" 0 4000
    (by simp)).2.2.1 (by decide)).1
